import Mathlib

/-!
# Verification of the unfurlist URL-unfurling engine

A shallow embedding, in Lean 4, of the parts of the Doist/unfurlist Go
repository that the frozen claims C1–C10 are about, together with theorems
settling those claims.

Conventions used throughout:
* Go strings are Lean `String` (or `List Char` where the Go code works
  rune-by-rune); Go byte slices are `List Nat` with every element a byte value.
* Go machine integers (`int`) are modelled as `Int`; SHA-1 32-bit words are
  `Nat` reduced `% 2^32` at every operation.
* Fallible Go calls return `Option`/`Except`.
* Network and other external effects (HTTP requests, memcached, snappy, JSON,
  the HTML/oEmbed parsers) are oracles: function-valued fields of an
  environment record `Env`.  The per-URL worker `processURL` additionally
  returns the list of external events it triggered, so that claims about
  "no outbound fetch" are statements about that trace.
* Unicode character classes of the Go regexp (`\pL`, `\pN`) and of
  `strings.ToLower` are modelled on their ASCII fragment; every concrete
  input exercised by a theorem below is ASCII.
-/

namespace Unfurlist

/-! ## Result record: `unfurlResult` (src/unfurlist.go lines 119–132) -/

/-- Go struct `unfurlResult`.  The Go field `Type` is spelled `Type'` here
(`Type` is a Lean keyword); `idx` is the non-serialized ordering key. -/
structure unfurlResult where
  URL : String
  Title : String
  Type' : String
  Description : String
  HTML : String
  SiteName : String
  Favicon : String
  Image : String
  ImageWidth : Int
  ImageHeight : Int
  idx : Int
deriving DecidableEq, Repr

/-- The Go zero value `unfurlResult{}`. -/
def emptyResult : unfurlResult :=
  ⟨"", "", "", "", "", "", "", "", 0, 0, 0⟩

/-- Go `&unfurlResult{URL: link}` (src/unfurlist.go line 303). -/
def mkResult (link : String) : unfurlResult :=
  { emptyResult with URL := link }

/-- Method `unfurlResult.Empty` (src/unfurlist.go lines 134–137). -/
def unfurlResult.Empty (u : unfurlResult) : Bool :=
  u.URL == "" && u.Title == "" && u.Type' == "" &&
    u.Description == "" && u.Image == ""

/-- Method `unfurlResult.Merge` (src/unfurlist.go lines 144–175).  The Go receiver
mutates `u` field by field; the nil test on the argument is modelled by
`Option`.  Note the source touches neither `Favicon` nor `idx`. -/
def unfurlResult.Merge (u : unfurlResult) (u2 : Option unfurlResult) : unfurlResult :=
  match u2 with
  | none => u
  | some v =>
    { URL := if u.URL = "" then v.URL else u.URL
      Title := if u.Title = "" then v.Title else u.Title
      Type' := if u.Type' = "" then v.Type' else u.Type'
      Description := if u.Description = "" then v.Description else u.Description
      HTML := if u.HTML = "" then v.HTML else u.HTML
      SiteName := if u.SiteName = "" then v.SiteName else u.SiteName
      Favicon := u.Favicon
      Image := if u.Image = "" then v.Image else u.Image
      ImageWidth := if u.ImageWidth = 0 then v.ImageWidth else u.ImageWidth
      ImageHeight := if u.ImageHeight = 0 then v.ImageHeight else u.ImageHeight
      idx := u.idx }

/-! ## Plug-in metadata: `Metadata` (src/unnamed/part_004) -/

/-- Go struct `Metadata` (src/unnamed/part_004 lines 15–22). -/
structure Metadata where
  Title : String
  Type' : String
  Description : String
  Image : String
  ImageWidth : Int
  ImageHeight : Int
deriving DecidableEq, Repr

/-- Method `Metadata.Valid` (src/unnamed/part_004 lines 25–27), translated exactly.
The Go source reads `return m != nil || m.Title != "" || m.Description != "" ||
m.Image != ""`; for the (always non-nil) receiver the first disjunct `m != nil`
is `true`, so the whole disjunction short-circuits to `true`. -/
def Metadata.Valid (m : Metadata) : Bool :=
  true || m.Title != "" || m.Description != "" || m.Image != ""

/-- What the doc comment on `Metadata.Valid` ("check that at least one of the
mandatory attributes is non-empty") and the spec say the function should
compute: at least one of `Title`, `Description`, `Image` non-empty. -/
def Metadata.validIntended (m : Metadata) : Bool :=
  m.Title != "" || m.Description != "" || m.Image != ""

/-- The field-assignment block repeated at src/unfurlist.go lines 337–342 and
356–361: copy the metadata returned by a plug-in fetcher into the result. -/
def applyMeta (r : unfurlResult) (m : Metadata) : unfurlResult :=
  { r with
    Title := m.Title
    Type' := m.Type'
    Description := m.Description
    Image := m.Image
    ImageWidth := m.ImageWidth
    ImageHeight := m.ImageHeight }

/-! ## String helpers

Go's `strings.HasPrefix`/`HasSuffix`/`Contains`/`ToLower` are modelled on
character lists (the built-in `String` operations are replaced by these
list-level equivalents so that every definition evaluates inside the
kernel). -/

/-- Test whether `sub` is a leading run of `l`. -/
def startsWithList : List Char → List Char → Bool
  | [], _ => true
  | a :: as, l =>
    match l with
    | [] => false
    | b :: bs => a = b && startsWithList as bs

/-- Test whether `sub` occurs contiguously somewhere in `l`. -/
def hasInfixList (sub : List Char) : List Char → Bool
  | [] => startsWithList sub []
  | c :: rest => startsWithList sub (c :: rest) || hasInfixList sub rest

/-- Go `strings.HasPrefix(s, p)`. -/
def strStartsWith (s p : String) : Bool :=
  startsWithList p.toList s.toList

/-- Go `strings.HasSuffix(s, p)`. -/
def strEndsWith (s p : String) : Bool :=
  startsWithList p.toList.reverse s.toList.reverse

/-- Go `strings.Contains(s, sub)`. -/
def containsSub (s sub : String) : Bool :=
  hasInfixList sub.toList s.toList

/-- Go `strings.ToLower` (ASCII fragment). -/
def lowerStr (s : String) : String :=
  String.mk (s.toList.map Char.toLower)

/-! ## URLs: the fragment of Go `net/url` the engine consumes -/

/-- The fields of Go `net/url.URL` that unfurlist reads: `Scheme`, `Host`,
`Path`, `RawQuery`.  (Userinfo, port splitting, fragments and the `Opaque`
form are not consumed by any claim and are dropped by the parser model.) -/
structure URLRec where
  scheme : String
  host : String
  path : String
  rawQuery : String
deriving DecidableEq, Repr

/-- Go `(*url.URL).String()` for the retained fields: `scheme://host/path?query`
(query appended only when non-empty, as in Go). -/
def urlString (u : URLRec) : String :=
  (if u.scheme = "" then "" else u.scheme ++ ":") ++
    (if u.host = "" then "" else "//" ++ u.host) ++
    u.path ++
    (if u.rawQuery = "" then "" else "?" ++ u.rawQuery)

/-- A scheme character after the first: `[a-zA-Z0-9+.-]` (RFC 3986 3.1, as in
Go `net/url.getScheme`). -/
def isSchemeChar (c : Char) : Bool :=
  c.isAlpha || c.isDigit || c = '+' || c = '-' || c = '.'

/-- Model of Go `net/url.Parse`, restricted to the behaviour the repository
relies on: reject ASCII control characters, split off an optional
`scheme:` head, an optional `//authority` (host; any userinfo before the
last `@` is dropped), the path, and the raw query after `?` (a `#fragment`
tail is discarded).  Port validation and percent-decoding of `net/url` are
not modelled; no claim depends on them. -/
def urlParse (s : String) : Option URLRec :=
  let cs := s.toList
  if cs.any (fun c => c.val < 32 || c.val = 127) then none
  else
    -- getScheme: `alpha (alpha|digit|+|-|.)* :`
    let (scheme, rest) :=
      match cs with
      | [] => ("", [])
      | c :: _ =>
        if c.isAlpha then
          let head := cs.takeWhile isSchemeChar
          let tail := cs.drop head.length
          match tail with
          | ':' :: r => (lowerStr (String.mk head), r)
          | _ => ("", cs)
        else ("", cs)
    if scheme = "" && cs.head? = some ':' then none
    else
      let noFrag := rest.takeWhile (fun c => c ≠ '#')
      let (host, pathAndQuery) :=
        match noFrag with
        | '/' :: '/' :: r =>
          let auth := r.takeWhile (fun c => c ≠ '/' && c ≠ '?')
          let hostPart := if auth.contains '@' then
              (auth.reverse.takeWhile (fun c => c ≠ '@')).reverse
            else auth
          (String.mk hostPart, r.drop auth.length)
        | _ => ("", noFrag)
      let path := pathAndQuery.takeWhile (fun c => c ≠ '?')
      let query := match pathAndQuery.drop path.length with
        | '?' :: q => String.mk q
        | _ => ""
      some ⟨scheme, host, String.mk path, query⟩

/-- The rune test of the query-validation loop in `validURL`
(src/url_parser.go lines 96–121): RFC 3986 3.4 `query` characters. -/
def queryCharOK (r : Char) : Bool :=
  if ('0' ≤ r && r ≤ '9') || ('A' ≤ r && r ≤ 'Z') || ('a' ≤ r && r ≤ 'z') then true
  else
    r = '/' || r = '?' || r = ':' || r = '@' || r = '-' || r = '.' || r = '_' ||
      r = '~' || r = '%' || r = '!' || r = '$' || r = '&' || r = '\'' ||
      r = '(' || r = ')' || r = '*' || r = '+' || r = ',' || r = ';' || r = '='

/-- Function `validURL` (src/url_parser.go lines 80–123): non-empty, parses, non-empty
host, scheme `http`/`https`, and every rune of the raw query in the RFC 3986
query charset. -/
def validURL (s : String) : Bool :=
  if s = "" then false
  else
    match urlParse s with
    | none => false
    | some u =>
      if u.host = "" then false
      else
        match u.scheme with
        | "http" => (u.rawQuery.toList.all queryCharOK)
        | "https" => (u.rawQuery.toList.all queryCharOK)
        | _ => false

/-! ### Reference resolution (model of `(*url.URL).ResolveReference`) -/

/-- Procedure `remove_dot_segments` of RFC 3986 5.2.4 on a path already split at `/`. -/
def removeDotSegs : List String → List String → List String
  | acc, [] => acc.reverse
  | acc, seg :: rest =>
    if seg = "." then
      if rest = [] then acc.reverse ++ [""] else removeDotSegs acc rest
    else if seg = ".." then
      let acc' := match acc with
        | [] => []
        | [x] => if x = "" then [x] else []   -- keep a leading empty segment (absolute path root)
        | _ :: t => t
      if rest = [] then acc'.reverse ++ [""] else removeDotSegs acc' rest
    else removeDotSegs (seg :: acc) rest

/-- Split a character list at `/`. -/
def splitSlashAux : List Char → List Char → List String
  | acc, [] => [String.mk acc.reverse]
  | acc, '/' :: rest => String.mk acc.reverse :: splitSlashAux [] rest
  | acc, c :: rest => splitSlashAux (c :: acc) rest

/-- Split a path on `/`. -/
def splitSlash (s : String) : List String :=
  splitSlashAux [] s.toList

/-- Characters of the `/`-joined segment list. -/
def joinSlashAux : List String → List Char
  | [] => []
  | [x] => x.toList
  | x :: xs => x.toList ++ '/' :: joinSlashAux xs

/-- Join path segments with `/`. -/
def joinSlash (l : List String) : String :=
  String.mk (joinSlashAux l)

/-- Dot-segment removal on a path string. -/
def cleanPath (p : String) : String :=
  if p = "" then "" else joinSlash (removeDotSegs [] (splitSlash p))

/-- Model of Go `(*url.URL).ResolveReference` (RFC 3986 5.3) on the retained
fields. -/
def resolveReference (base ref : URLRec) : URLRec :=
  if ref.scheme ≠ "" then
    { ref with path := cleanPath ref.path }
  else if ref.host ≠ "" then
    { scheme := base.scheme
      host := ref.host
      path := cleanPath ref.path
      rawQuery := ref.rawQuery }
  else if ref.path = "" then
    { base with rawQuery := if ref.rawQuery = "" then base.rawQuery else ref.rawQuery }
  else if strStartsWith ref.path "/" then
    { base with
      path := cleanPath ref.path
      rawQuery := ref.rawQuery }
  else
    let dir := match (splitSlash base.path).reverse with
      | [] => []
      | _ :: t => t.reverse
    { base with
      path := cleanPath (joinSlash (dir ++ splitSlash ref.path))
      rawQuery := ref.rawQuery }

/-! ## `absoluteImageURL` (src/image.go lines 19–40) -/

/-- The error cases of `absoluteImageURL`: `errEmptyImageURL`, a
`url.Parse` failure, or `unsupported url scheme`. -/
inductive AbsImgErr where
  | emptyImageURL
  | parseError
  | unsupportedScheme
deriving DecidableEq, Repr

/-- Function `absoluteImageURL` (src/image.go lines 19–40): empty image errors with
`errEmptyImageURL`; an image URL that begins with the four bytes `http` is
returned verbatim; otherwise it is parsed, its scheme must be `http`,
`https` or empty, and it is resolved against the parsed origin. -/
def absoluteImageURL (originURL imageURL : String) : Except AbsImgErr String :=
  if imageURL = "" then .error .emptyImageURL
  else if strStartsWith imageURL "http" then .ok imageURL
  else
    match urlParse imageURL with
    | none => .error .parseError
    | some iu =>
      if iu.scheme = "http" || iu.scheme = "https" || iu.scheme = "" then
        match urlParse originURL with
        | none => .error .parseError
        | some base => .ok (urlString (resolveReference base iu))
      else .error .unsupportedScheme

/-! ## Plain-text URL extractor (src/url_parser.go lines 15–72)

The regexp `(?i:https?)://[%:/?#\[\]@!$&'\(\){}*+,;=\pL\pN._~-]+` is modelled
by an explicit scanner: a case-insensitive `http`, an optional `s`, the
literal `://`, then a maximal non-empty run of class characters.  `\pL`/`\pN`
are modelled by their ASCII fragment (`Char.isAlpha`/`Char.isDigit`); all
concrete inputs below are ASCII. -/

/-- A character of the regexp's bracket class. -/
def isUrlChar (c : Char) : Bool :=
  c.isAlpha || c.isDigit ||
    c ∈ ['%', ':', '/', '?', '#', '[', ']', '@', '!', '$', '&', '\'',
         '(', ')', '{', '}', '*', '+', ',', ';', '=', '.', '_', '~', '-']

/-- Try to match the regexp at the head of `cs`; on success return the
matched characters and the remainder of the input. -/
def matchAt (cs : List Char) : Option (List Char × List Char) :=
  match cs with
  | c1 :: c2 :: c3 :: c4 :: rest =>
    if c1.toLower = 'h' && c2.toLower = 't' && c3.toLower = 't' && c4.toLower = 'p' then
      let sPart : List Char × List Char :=
        match rest with
        | c5 :: r => if c5.toLower = 's' then ([c5], r) else ([], rest)
        | [] => ([], [])
      match sPart.2 with
      | ca :: cb :: cc :: r3 =>
        if ca = ':' && cb = '/' && cc = '/' then
          let body := r3.takeWhile isUrlChar
          if body = [] then none
          else some (c1 :: c2 :: c3 :: c4 :: (sPart.1 ++ ':' :: '/' :: '/' :: body),
                     r3.drop body.length)
        else none
      | _ => none
    else none
  | _ => none

/-- Scanner for `regexp.FindAllString(content, maxItems)`: leftmost,
non-overlapping matches; a negative `maxItems` means no limit.  The fuel
argument bounds the recursion; every step consumes at least one character,
so fuel `cs.length` is always enough. -/
def findAllAux : Nat → List Char → Int → List (List Char)
  | 0, _, _ => []
  | fuel + 1, cs, n =>
    if n = 0 then []
    else
      match cs with
      | [] => []
      | c :: rest =>
        match matchAt (c :: rest) with
        | some (m, after) => m :: findAllAux fuel after (n - 1)
        | none => findAllAux fuel rest n

/-- Go `reUrls.FindAllString(content, maxItems)`. -/
def findAll (cs : List Char) (maxItems : Int) : List (List Char) :=
  findAllAux cs.length cs maxItems

/-- Go `const punct = "[]()<>{},;.*_"` (src/url_parser.go line 26). -/
def punctChars : List Char :=
  ['[', ']', '(', ')', '<', '>', '{', '}', ',', ';', '.', '*', '_']

/-- Go `strings.Index(s, string(o)) > 0`: the first occurrence of `o` in `s` is
at a positive index, i.e. `o` is not the head but occurs in the tail. -/
def indexPositive (s : List Char) (o : Char) : Bool :=
  match s with
  | [] => false
  | x :: xs => x ≠ o && xs.contains o

/-- The `switch s[idx2]` of the cleanup loop (src/url_parser.go lines 40–57):
a trailing closer is kept when its opener occurs at a positive index of the
current string. -/
def keepClose (c : Char) (s : List Char) : Bool :=
  if c = ')' then indexPositive s '('
  else if c = ']' then indexPositive s '['
  else if c = '>' then indexPositive s '<'
  else if c = '}' then indexPositive s '{'
  else false

/-- The cleanup loop `cleanLoop` (src/url_parser.go lines 34–59) on the
reversed string, so that stripping the last character is structural:
while the last character of the current string is punctuation, drop it,
except stop when `keepClose` fires.  (On the empty string the Go code would
index out of range; it is unreachable because matches keep their
`http`/`https` head, whose characters are not punctuation.) -/
def cleanRev : List Char → List Char
  | [] => []
  | c :: rest =>
    if c ∈ punctChars then
      if keepClose c (c :: rest).reverse then c :: rest
      else cleanRev rest
    else c :: rest

/-- Per-match cleanup (src/url_parser.go lines 28–61), including the
guard `strings.IndexAny(s, punct) < 0` that skips strings containing no
punctuation at all. -/
def cleanURL (s : List Char) : List Char :=
  if s.any (fun c => c ∈ punctChars) then (cleanRev s.reverse).reverse else s

/-- The de-duplication loop (src/url_parser.go lines 62–71) with its `seen`
set accumulated as a list. -/
def dedupSeen : List String → List String → List String
  | _, [] => []
  | seen, v :: rest =>
    if seen.contains v then dedupSeen seen rest
    else v :: dedupSeen (v :: seen) rest

/-- De-duplicate keeping the first occurrence of each element. -/
def dedupFirstSeen (l : List String) : List String :=
  dedupSeen [] l

/-- The cleaned match list: `FindAllString` capped at `maxItems`, then the
per-match cleanup — the intermediate value of `parseURLsMax` before
de-duplication. -/
def cleanedMatches (content : String) (maxItems : Int) : List String :=
  (findAll content.toList maxItems).map (fun s => String.mk (cleanURL s))

/-- Function `parseURLsMax` (src/url_parser.go lines 25–72): regexp matches capped at
`maxItems`, per-match cleanup, then de-duplication in first-seen order. -/
def parseURLsMax (content : String) (maxItems : Int) : List String :=
  dedupFirstSeen (cleanedMatches content maxItems)

/-- Function `ParseURLs` (src/url_parser.go line 23). -/
def ParseURLs (content : String) : List String :=
  parseURLsMax content (-1)

/-! ### Spec-side definitions for C2 and C7 -/

/-- Specification-style first-seen de-duplication: keep each head and drop
its later duplicates.  Used to state that the code's `seen`-set loop keeps
exactly the first occurrences. -/
def firstOccurrences : List String → List String
  | [] => []
  | x :: xs => x :: firstOccurrences (xs.filter (fun y => !(y == x)))
termination_by l => l.length
decreasing_by
  simp only [List.length_cons]
  exact Nat.lt_succ_of_le (List.length_filter_le _ _)

/-- The strip set named by the claim C7 and by spec §4.1: `] ) > } , ; . * _`
(closers only — the code's `punct` additionally contains the openers
`[ ( { <`). -/
def specPunct : List Char :=
  [']', ')', '>', '}', ',', ';', '.', '*', '_']

/-- The claim's keep rule: a trailing closer is preserved whenever the
corresponding opener appears anywhere else in the (original) match. -/
def keepSpec (orig : List Char) (c : Char) : Bool :=
  if c = ')' then orig.contains '('
  else if c = ']' then orig.contains '['
  else if c = '>' then orig.contains '<'
  else if c = '}' then orig.contains '{'
  else false

/-- Modelled from the spec: the per-match cleanup exactly as claim C7 states
it — iteratively strip trailing characters of `specPunct`, keeping a trailing
closer whose opener appears elsewhere in the match (reversed-list worker). -/
def cleanSpecRev (orig : List Char) : List Char → List Char
  | [] => []
  | c :: rest =>
    if c ∈ specPunct then
      if keepSpec orig c then c :: rest
      else cleanSpecRev orig rest
    else c :: rest

/-- Modelled from the spec: per-match cleanup as stated by claim C7. -/
def cleanSpec (s : List Char) : List Char :=
  (cleanSpecRev s s.reverse).reverse

/-! ## Title blocklist (src/unfurlist.go lines 537–548) -/

/-- Function `blocklisted` (src/unfurlist.go lines 537–548): a non-empty title is
blocklisted iff, lowercased, it contains one of the configured substrings. -/
def blocklisted (blocklist : List String) (title : String) : Bool :=
  if title = "" || blocklist = [] then false
  else blocklist.any (fun s => containsSub (lowerStr title) s)

/-! ## Cache keys: SHA-1 and lowercase hex (src/unfurlist.go lines 530–535)

`mcKey` is `hex.EncodeToString(sha1.Sum([]byte(s))[:])`.  SHA-1 (FIPS 180)
is implemented below over `Nat` with explicit reduction `% 2^32`;
`hex.EncodeToString` always uses the lowercase alphabet. -/

/-- Constant 2^32. -/
def M32 : Nat := 4294967296

/-- Reduce to a 32-bit word. -/
def mask32 (x : Nat) : Nat := x % M32

/-- Rotate a 32-bit word left by `n`. -/
def rotl32 (n x : Nat) : Nat := mask32 ((x <<< n) ||| (x >>> (32 - n)))

/-- UTF-8 bytes of one character (Go strings are UTF-8; `[]byte(s)`). -/
def utf8Bytes (c : Char) : List Nat :=
  let n := c.toNat
  if n < 128 then [n]
  else if n < 2048 then [192 + n / 64, 128 + n % 64]
  else if n < 65536 then [224 + n / 4096, 128 + (n / 64) % 64, 128 + n % 64]
  else [240 + n / 262144, 128 + (n / 4096) % 64, 128 + (n / 64) % 64, 128 + n % 64]

/-- Go `[]byte(s)`. -/
def strBytes (s : String) : List Nat :=
  s.toList.foldr (fun c acc => utf8Bytes c ++ acc) []

/-- Big-endian 8-byte encoding. -/
def beBytes8 (n : Nat) : List Nat :=
  [n / 2 ^ 56 % 256, n / 2 ^ 48 % 256, n / 2 ^ 40 % 256, n / 2 ^ 32 % 256,
   n / 2 ^ 24 % 256, n / 2 ^ 16 % 256, n / 2 ^ 8 % 256, n % 256]

/-- Big-endian 4-byte encoding. -/
def beBytes4 (n : Nat) : List Nat :=
  [n / 2 ^ 24 % 256, n / 2 ^ 16 % 256, n / 2 ^ 8 % 256, n % 256]

/-- SHA-1 padding: `0x80`, zeros to 56 mod 64, then the bit length. -/
def sha1Pad (msg : List Nat) : List Nat :=
  let zeros := (120 - ((msg.length + 1) % 64)) % 64
  msg ++ [128] ++ List.replicate zeros 0 ++ beBytes8 (msg.length * 8)

/-- Split into 64-byte blocks (fuel-bounded; every step consumes input). -/
def chunksAux : Nat → List Nat → List (List Nat)
  | 0, _ => []
  | _ + 1, [] => []
  | fuel + 1, l => l.take 64 :: chunksAux fuel (l.drop 64)

/-- Split a padded message into 64-byte blocks. -/
def chunks64 (l : List Nat) : List (List Nat) := chunksAux l.length l

/-- Big-endian 32-bit words of a 64-byte block. -/
def words16 : List Nat → List Nat
  | b0 :: b1 :: b2 :: b3 :: rest =>
    (((b0 * 256 + b1) * 256 + b2) * 256 + b3) :: words16 rest
  | _ => []

/-- Schedule expansion to 80 words. -/
def expandWords (ws : List Nat) : List Nat :=
  (List.range 64).foldl
    (fun acc _ =>
      let n := acc.length
      acc ++ [rotl32 1 ((acc.getD (n - 3) 0) ^^^ (acc.getD (n - 8) 0) ^^^
        (acc.getD (n - 14) 0) ^^^ (acc.getD (n - 16) 0))])
    ws

/-- The SHA-1 state: five 32-bit words. -/
abbrev Sha1State := Nat × Nat × Nat × Nat × Nat

/-- Compress one 64-byte block into the state. -/
def sha1Block (h : Sha1State) (block : List Nat) : Sha1State :=
  let ws := expandWords (words16 block)
  let st := ((List.range 80).zip ws).foldl
    (fun (st : Sha1State) (p : Nat × Nat) =>
      let (a, b, c, d, e) := st
      let i := p.1
      let w := p.2
      let f :=
        if i < 20 then (b &&& c) ||| (((M32 - 1) - b) &&& d)
        else if i < 40 then b ^^^ c ^^^ d
        else if i < 60 then (b &&& c) ||| (b &&& d) ||| (c &&& d)
        else b ^^^ c ^^^ d
      let k :=
        if i < 20 then 0x5A827999
        else if i < 40 then 0x6ED9EBA1
        else if i < 60 then 0x8F1BBCDC
        else 0xCA62C1D6
      let temp := mask32 (rotl32 5 a + f + e + k + w)
      (temp, a, rotl32 30 b, c, d))
    h
  (mask32 (h.1 + st.1), mask32 (h.2.1 + st.2.1), mask32 (h.2.2.1 + st.2.2.1),
   mask32 (h.2.2.2.1 + st.2.2.2.1), mask32 (h.2.2.2.2 + st.2.2.2.2))

/-- SHA-1 digest (20 bytes) of a byte string. -/
def sha1 (msg : List Nat) : List Nat :=
  let st := (chunks64 (sha1Pad msg)).foldl sha1Block
    (0x67452301, 0xEFCDAB89, 0x98BADCFE, 0x10325476, 0xC3D2E1F0)
  beBytes4 st.1 ++ beBytes4 st.2.1 ++ beBytes4 st.2.2.1 ++
    beBytes4 st.2.2.2.1 ++ beBytes4 st.2.2.2.2

/-- The lowercase hex alphabet of Go `encoding/hex`, `0-9` then `a-f`
(`Nat.digitChar` maps 0–15 onto exactly these characters). -/
def hexChars : List Char :=
  (List.range 16).map Nat.digitChar

/-- Two lowercase hex digits of a byte. -/
def hexByte (b : Nat) : List Char :=
  [Nat.digitChar (b / 16 % 16), Nat.digitChar (b % 16)]

/-- Go `hex.EncodeToString`. -/
def hexEncode (bs : List Nat) : String :=
  String.mk (bs.foldr (fun b acc => hexByte b ++ acc) [])

/-- Function `mcKey` (src/unfurlist.go lines 532–535): lowercase hex of the SHA-1 of
the URL string. -/
def mcKey (s : String) : String :=
  hexEncode (sha1 (strBytes s))

/-! ## YouTube specialized fetcher (src/youtube.go lines 19–48) -/

/-- The uppercase hex alphabet used by Go percent-encoding. -/
def hexUpperChars : List Char :=
  ['0', '1', '2', '3', '4', '5', '6', '7', '8', '9', 'A', 'B', 'C', 'D', 'E', 'F']

/-- Go `url.QueryEscape` on one byte: ASCII letters, digits and `-_.~` kept,
space becomes `+`, anything else `%XX` with uppercase hex. -/
def queryEscapeByte (b : Nat) : List Char :=
  if (65 ≤ b && b ≤ 90) || (97 ≤ b && b ≤ 122) || (48 ≤ b && b ≤ 57) ||
      b = 45 || b = 95 || b = 46 || b = 126 then
    [Char.ofNat b]
  else if b = 32 then ['+']
  else ['%', hexUpperChars.getD (b / 16 % 16) '0', hexUpperChars.getD (b % 16) '0']

/-- Go `url.QueryEscape`, byte by byte over the UTF-8 encoding. -/
def queryEscape (s : String) : String :=
  String.mk ((strBytes s).foldr (fun b acc => queryEscapeByte b ++ acc) [])

/-- The match test of `youtubeFetcher` (src/youtube.go line 20):
`u.Host == "www.youtube.com" && u.Path == "/watch" &&
strings.HasPrefix(u.RawQuery, "v=")`. -/
def youtubeMatches (u : URLRec) : Bool :=
  u.host == "www.youtube.com" && u.path == "/watch" && strStartsWith u.rawQuery "v="

/-- The oEmbed endpoint requested by `youtubeFetcher` (src/youtube.go
lines 27–28). -/
def youtubeEndpoint (u : URLRec) : String :=
  "https://www.youtube.com/oembed?format=json&url=" ++ queryEscape (urlString u)

/-- The deadline of the YouTube oEmbed request, in seconds
(src/youtube.go line 25: `context.WithTimeout(…, 3*time.Second)`). -/
def youtubeTimeoutSeconds : Nat := 3

/-- The fields of the decoded oEmbed payload that `youtubeFetcher` consumes
(`oembed.FromResponse`, src/youtube.go lines 38–48). -/
structure OembedInfo where
  title : String
  type' : String
  thumbnail : String
  thumbnailWidth : Int
  thumbnailHeight : Int
deriving DecidableEq, Repr

/-- The `Metadata` built from a decoded payload (src/youtube.go lines 42–48):
note `Description` is never set. -/
def metaOfOembed (i : OembedInfo) : Metadata :=
  { Title := i.title
    Type' := i.type'
    Description := ""
    Image := i.thumbnail
    ImageWidth := i.thumbnailWidth
    ImageHeight := i.thumbnailHeight }

/-- Function `youtubeFetcher` (src/youtube.go lines 19–48).  The HTTP request to the
oEmbed endpoint and its decoding are the oracle `oembedGet`; every error path
of the Go function (request construction, transport, decode) is the oracle
returning `none`. -/
def youtubeFetcher (oembedGet : String → Option OembedInfo) (u : URLRec) :
    Option Metadata :=
  if !youtubeMatches u then none
  else
    match oembedGet (youtubeEndpoint u) with
    | some i => some (metaOfOembed i)
    | none => none

/-! ## The per-URL worker (src/unfurlist.go lines 283–411)

External effects are oracle fields of `Env`; the worker returns its result
together with the list of external events it triggered and the return point
it exited through. -/

/-- Go struct `pageChunk` (src/unfurlist.go lines 415–419). -/
structure pageChunk where
  data : List Nat
  url : URLRec
  ct : String
deriving DecidableEq, Repr

/-- The response data `fetchData` consumes: status, final (post-redirect)
request URL, `Content-Encoding`, `Content-Type`, body. -/
structure HttpResp where
  statusCode : Nat
  finalURL : URLRec
  contentEncoding : String
  contentType : String
  body : List Nat
deriving DecidableEq, Repr

/-- One external effect of the worker. -/
inductive NetEvent where
  | cacheRead (key : String)
  | oembedFetch (endpoint : String)
  | httpFetch (u : String)
  | ytFetch (endpoint : String)
  | faviconProbe
  | fetcherCall
  | imageProbe (u : String)
  | cacheWrite (key : String)
deriving DecidableEq, Repr

/-- The return point `processURL` exited through: the blocklist return
(line 306), the cache-hit return (line 315), the fetch-error return
(line 346), or the final return (line 411). -/
inductive Outcome where
  | blocked
  | cacheHit
  | fetchFailed
  | completed
deriving DecidableEq, Repr

/-- Result, event trace and return point of one `processURL` run. -/
structure ProcOut where
  result : unfurlResult
  events : List NetEvent
  outcome : Outcome
deriving DecidableEq, Repr

/-- The oracle environment: every external dependency of the worker.
`cacheGet = none` models `h.Cache == nil`; `pmap = none` models
`h.pmap == nil`. -/
structure Env where
  pmap : Option (String → Bool)
  cacheGet : Option (String → Option (List Nat))
  snappyDecode : List Nat → Option (List Nat)
  jsonDecodeResult : List Nat → Option unfurlResult
  oembedLookup : String → Option String
  fetchOembed : String → Option unfurlResult
  httpGet : String → Option HttpResp
  zlibDecode : List Nat → Option (List Nat)
  maxBodyChunkSize : Nat
  ytOembed : String → Option OembedInfo
  favicon : pageChunk → Option String
  fetchers : List (URLRec → Option Metadata)
  titleBlocklist : List String
  ogParse : pageChunk → Option unfurlResult
  oembedDiscover : pageChunk → Option String
  basicParse : pageChunk → Option unfurlResult
  fetchImageSize : Bool
  dims : String → Option (Int × Int)

/-- Return value of `fetchData`: chunk with nil error, partial chunk with
non-nil error (the `>= 400` path), or nil chunk with non-nil error. -/
inductive FetchOut where
  | ok (c : pageChunk)
  | errWith (c : pageChunk)
  | err
deriving DecidableEq, Repr

/-- Method `fetchData` (src/unfurlist.go lines 456–489): one GET; on status `>= 400`
an error carrying a partial chunk whose `url` is the final post-redirect URL;
the twitter/X deflate workaround; then at most `MaxBodyChunkSize` body
bytes. -/
def fetchData (env : Env) (u : String) : FetchOut :=
  match env.httpGet u with
  | none => .err
  | some resp =>
    if 400 ≤ resp.statusCode then .errWith ⟨[], resp.finalURL, ""⟩
    else
      let bodyE :=
        if resp.contentEncoding == "deflate" &&
            (strEndsWith resp.finalURL.host "twitter.com" ||
              strEndsWith resp.finalURL.host "x.com") then
          env.zlibDecode resp.body
        else some resp.body
      match bodyE with
      | none => .err
      | some body =>
        .ok ⟨body.take env.maxBodyChunkSize, resp.finalURL, resp.contentType⟩

/-- The decode chain of a cached value (src/unfurlist.go lines 311–313):
Snappy-decompress, then JSON-decode. -/
def cacheDecode (env : Env) (raw : List Nat) : Option unfurlResult :=
  match env.snappyDecode raw with
  | some b => env.jsonDecodeResult b
  | none => none

/-- The cache read of `processURL` (src/unfurlist.go lines 309–319): fetch
under `mcKey link` and decode; any failure is `none`. -/
def cacheLookup (env : Env) (link : String) : Option unfurlResult :=
  match env.cacheGet with
  | some get =>
    match get (mcKey link) with
    | some raw => cacheDecode env raw
    | none => none
  | none => none

/-- The cache-read event: present exactly when a cache is configured. -/
def cacheReadEvents (env : Env) (link : String) : List NetEvent :=
  match env.cacheGet with
  | some _ => [.cacheRead (mcKey link)]
  | none => []

/-- The image post-processing block at `hasMatch` (src/unfurlist.go
lines 383–403): resolve the image against the result URL, validate, and
probe dimensions when `FetchImageSize` is set. -/
def imagePostprocess (fetchImageSize : Bool) (dims : String → Option (Int × Int))
    (r : unfurlResult) : unfurlResult × List NetEvent :=
  match absoluteImageURL r.URL r.Image with
  | .error .emptyImageURL => (r, [])
  | .ok absURL =>
    let r1 := if validURL absURL then { r with Image := absURL } else { r with Image := "" }
    if r1.Image != "" && fetchImageSize && (r1.ImageWidth == 0 || r1.ImageHeight == 0) then
      match dims r1.Image with
      | some (w, h) => ({ r1 with ImageWidth := w, ImageHeight := h }, [.imageProbe r1.Image])
      | none => (r1, [.imageProbe r1.Image])
    else (r1, [])
  | .error _ => ({ r with Image := "", ImageWidth := 0, ImageHeight := 0 }, [])

/-- The tail of `processURL` from `hasMatch` (src/unfurlist.go
lines 383–411): image post-processing, then the cache write, which happens
iff a cache is configured and the result is not `Empty` (`json.Marshal` of
an `unfurlResult` cannot fail, so its error guard is not modelled). -/
def finalize (env : Env) (link : String) (r : unfurlResult) (evs : List NetEvent) :
    ProcOut :=
  let pp := imagePostprocess env.fetchImageSize env.dims r
  let writeEvs : List NetEvent :=
    match env.cacheGet with
    | some _ => if pp.1.Empty then [] else [.cacheWrite (mcKey link)]
    | none => []
  ⟨pp.1, evs ++ pp.2 ++ writeEvs, .completed⟩

/-- The plug-in fetcher loop (src/unfurlist.go lines 351–363): first fetcher
whose metadata is `Valid` wins; one `fetcherCall` event per consulted
fetcher. -/
def runFetchers : List (URLRec → Option Metadata) → URLRec →
    Option Metadata × List NetEvent
  | [], _ => (none, [])
  | f :: fs, u =>
    match f u with
    | some meta =>
      if meta.Valid then (some meta, [.fetcherCall])
      else
        let rest := runFetchers fs u
        (rest.1, .fetcherCall :: rest.2)
    | none =>
      let rest := runFetchers fs u
      (rest.1, .fetcherCall :: rest.2)

/-- Method `(*pageChunk).oembedEndpoint` (src/unfurlist.go lines 421–436): provider
lookup on the final URL first, then `<link>` discovery inside the chunk
(the charset reader and `oembed.Discover` errors are folded into the
`oembedDiscover` oracle). -/
def oembedEndpoint (env : Env) (p : pageChunk) : Option String :=
  match env.oembedLookup (urlString p.url) with
  | some u => some u
  | none => env.oembedDiscover p

/-- The basic-HTML stage and fall-through to `hasMatch` (src/unfurlist.go
lines 377–381). -/
def basicStage (env : Env) (link : String) (result : unfurlResult)
    (chunk : pageChunk) (evs : List NetEvent) : ProcOut :=
  match env.basicParse chunk with
  | some res =>
    if !blocklisted env.titleBlocklist res.Title then
      finalize env link (result.Merge (some res)) evs
    else finalize env link result evs
  | none => finalize env link result evs

/-- The oEmbed-discovery stage (src/unfurlist.go lines 371–376), entered when
Open Graph produced nothing usable. -/
def afterOG (env : Env) (link : String) (result : unfurlResult)
    (chunk : pageChunk) (evs : List NetEvent) : ProcOut :=
  match oembedEndpoint env chunk with
  | some endpoint =>
    match env.fetchOembed endpoint with
    | some res => finalize env link (result.Merge (some res)) (evs ++ [.oembedFetch endpoint])
    | none => basicStage env link result chunk (evs ++ [.oembedFetch endpoint])
  | none => basicStage env link result chunk evs

/-- The successful-fetch pipeline (src/unfurlist.go lines 348–381): favicon,
plug-in fetchers, Open Graph, then `afterOG`. -/
def afterChunk (env : Env) (link : String) (result0 : unfurlResult)
    (chunk : pageChunk) (evs : List NetEvent) : ProcOut :=
  let result := match env.favicon chunk with
    | some s => if s != "" then { result0 with Favicon := s } else result0
    | none => result0
  let evs := evs ++ [.faviconProbe]
  let fr := runFetchers env.fetchers chunk.url
  let evs := evs ++ fr.2
  match fr.1 with
  | some meta => finalize env link (applyMeta result meta) evs
  | none =>
    match env.ogParse chunk with
    | some res =>
      if !blocklisted env.titleBlocklist res.Title then
        finalize env link (result.Merge (some res)) evs
      else afterOG env link result chunk evs
    | none => afterOG env link result chunk evs

/-- The fetch-error fallback (src/unfurlist.go lines 334–347): when the
partial chunk's final host contains `youtube.com`, try `youtubeFetcher` on
the final URL; a valid hit proceeds to `hasMatch`, anything else returns the
minimum-viable result. -/
def fetchErrorFallback (env : Env) (link : String) (result : unfurlResult)
    (chunkOpt : Option pageChunk) (evs : List NetEvent) : ProcOut :=
  match chunkOpt with
  | some chunk =>
    if containsSub chunk.url.host "youtube.com" then
      let ytEvs : List NetEvent :=
        if youtubeMatches chunk.url then [.ytFetch (youtubeEndpoint chunk.url)] else []
      match youtubeFetcher env.ytOembed chunk.url with
      | some meta =>
        if meta.Valid then finalize env link (applyMeta result meta) (evs ++ ytEvs)
        else ⟨result, evs ++ ytEvs, .fetchFailed⟩
      | none => ⟨result, evs ++ ytEvs, .fetchFailed⟩
    else ⟨result, evs, .fetchFailed⟩
  | none => ⟨result, evs, .fetchFailed⟩

/-- The chunk fetch and its dispatch (src/unfurlist.go lines 333–347),
entered when the optimistic oEmbed produced nothing. -/
def afterOptimistic (env : Env) (link : String) (result : unfurlResult)
    (evs : List NetEvent) : ProcOut :=
  let evs := evs ++ [.httpFetch link]
  match fetchData env link with
  | .ok chunk => afterChunk env link result chunk evs
  | .errWith chunk => fetchErrorFallback env link result (some chunk) evs
  | .err => fetchErrorFallback env link result none evs

/-- The pipeline after the cache stage (src/unfurlist.go lines 320–411):
optimistic oEmbed-by-URL, then fetch. -/
def afterCache (env : Env) (link : String) : ProcOut :=
  let result := mkResult link
  match env.oembedLookup result.URL with
  | some endpoint =>
    match env.fetchOembed endpoint with
    | some res => finalize env link (result.Merge (some res)) [.oembedFetch endpoint]
    | none => afterOptimistic env link result [.oembedFetch endpoint]
  | none => afterOptimistic env link result []

/-- Method `processURL` (src/unfurlist.go lines 302–411): blocklist, cache read,
then the pipeline. -/
def processURL (env : Env) (link : String) : ProcOut :=
  let result := mkResult link
  if (match env.pmap with | some pm => pm link | none => false) then
    ⟨result, [], .blocked⟩
  else
    match cacheLookup env link with
    | some cached => ⟨cached, cacheReadEvents env link, .cacheHit⟩
    | none =>
      let p := afterCache env link
      ⟨p.result, cacheReadEvents env link ++ p.events, p.outcome⟩

/-- Method `processURLidx` (src/unfurlist.go lines 283–298) in its single-caller
reading: the singleflight `Do` collapses to a direct `processURL` call whose
result is copied with the caller's `idx` (`shared` is false, so the refetch
branch does not fire). -/
def processURLidx (env : Env) (i : Int) (link : String) : unfurlResult :=
  { (processURL env link).result with idx := i }

/-! ## Concrete fixtures used by witnesses -/

/-- An environment in which every oracle fails / is unconfigured. -/
def baseEnv : Env :=
  { pmap := none
    cacheGet := none
    snappyDecode := fun _ => none
    jsonDecodeResult := fun _ => none
    oembedLookup := fun _ => none
    fetchOembed := fun _ => none
    httpGet := fun _ => none
    zlibDecode := fun _ => none
    maxBodyChunkSize := 65536
    ytOembed := fun _ => none
    favicon := fun _ => none
    fetchers := []
    titleBlocklist := []
    ogParse := fun _ => none
    oembedDiscover := fun _ => none
    basicParse := fun _ => none
    fetchImageSize := false
    dims := fun _ => none }

/-- A destination for `Merge` carrying only a URL. -/
def mergeDest0 : unfurlResult := mkResult "http://a.example/"

/-- A `Merge` source carrying only a favicon. -/
def mergeSrc0 : unfurlResult :=
  { emptyResult with Favicon := "http://a.example/favicon.ico" }

/-- A parsed `youtu.be` short link. -/
def ytShort0 : URLRec := ⟨"https", "youtu.be", "/dQw4w9WgXcQ", ""⟩

/-- A parsed `www.youtube.com/watch` link. -/
def ytWatch0 : URLRec := ⟨"https", "www.youtube.com", "/watch", "v=dQw4w9WgXcQ"⟩

/-- A decoded oEmbed payload. -/
def ytInfo0 : OembedInfo :=
  ⟨"Never Gonna Give You Up", "video", "https://i.ytimg.com/vi/dQw4/hq.jpg", 480, 360⟩

/-- A result whose image is `"http://"`: `absoluteImageURL` returns it
verbatim (it begins with `http`) and `validURL` rejects it (empty host). -/
def imgResult0 : unfurlResult :=
  { emptyResult with
    URL := "http://example.com/"
    Image := "http://"
    ImageWidth := 10
    ImageHeight := 20 }

/-- A result with a well-formed absolute image. -/
def imgResultOk0 : unfurlResult :=
  { emptyResult with URL := "http://example.com/", Image := "http://example.com/a.png" }

/-- A result whose image has an unsupported scheme. -/
def imgResultFtp0 : unfurlResult :=
  { emptyResult with
    URL := "http://example.com/"
    Image := "ftp://x/i"
    ImageWidth := 3
    ImageHeight := 4 }

/-- A cached result distinct from anything the pipeline would build. -/
def cachedResult0 : unfurlResult :=
  { emptyResult with URL := "http://cached.example/", Title := "Cached title" }

/-- Environment with a cache hit that decodes to `cachedResult0`. -/
def envHit0 : Env :=
  { baseEnv with
    cacheGet := some (fun _ => some [7])
    snappyDecode := fun _ => some [8]
    jsonDecodeResult := fun _ => some cachedResult0 }

/-- Environment with a cache hit whose value fails to Snappy-decompress. -/
def envBadCache0 : Env :=
  { baseEnv with
    cacheGet := some (fun _ => some [7])
    snappyDecode := fun _ => none }

/-- A 500 response from a non-YouTube host. -/
def resp500 : HttpResp := ⟨500, ⟨"http", "example.com", "/x", ""⟩, "", "", []⟩

/-- Environment in which every fetch returns `resp500`. -/
def env500 : Env := { baseEnv with httpGet := fun _ => some resp500 }

/-- Environment for a completed pipeline: a 200 response and a basic-HTML
parse result, with a cache configured. -/
def envDone0 : Env :=
  { baseEnv with
    cacheGet := some (fun _ => none)
    httpGet := fun _ => some ⟨200, ⟨"http", "example.com", "/", ""⟩, "", "text/html", [60]⟩
    basicParse := fun _ => some { emptyResult with Title := "Hello", Type' := "website" } }

/-! ## Theorems

One theorem per claim (plus counterexamples/witnesses for the corrected
ones), each preceded by supporting lemmas where needed. -/

/-- C3: the claim states `Metadata.Valid` is true iff one of `Title`,
`Description`, `Image` is non-empty.  The code disagrees with its own doc
comment: because the receiver-nil test is joined with `||` instead of `&&`,
`Valid` returns `true` for every (non-nil) receiver — in particular for the
all-empty metadata record, where the documented/claimed answer is `false`. -/
theorem claim_C3_code_bug :
    Metadata.Valid ⟨"", "", "", "", 0, 0⟩ = true ∧
    Metadata.validIntended ⟨"", "", "", "", 0, 0⟩ = false ∧
    ∀ m : Metadata, m.Valid = true :=
  ⟨rfl, rfl, fun _ => rfl⟩

/-- C9 counterexample: the claim says the copy-if-empty rule holds for each
field of the Result record, but `Merge` never copies `Favicon`: with an empty
destination favicon and a non-empty source favicon the destination keeps
`""`. -/
theorem claim_C9_counterexample :
    mergeDest0.Favicon = "" ∧
    mergeSrc0.Favicon = "http://a.example/favicon.ico" ∧
    (mergeDest0.Merge (some mergeSrc0)).Favicon = "" :=
  ⟨rfl, rfl, rfl⟩

/-- C9 amended: for each of the nine fields `URL`, `Title`, `Type`,
`Description`, `HTML`, `SiteName`, `Image`, `ImageWidth`, `ImageHeight`,
`Merge` copies the source value exactly when the destination value is
zero/empty and keeps the destination value otherwise; the remaining fields
`Favicon` and `idx` always keep the destination value, and merging a nil
source changes nothing. -/
theorem claim_C9_amended (d s : unfurlResult) :
    ((d.URL = "" → (d.Merge (some s)).URL = s.URL) ∧
      (d.URL ≠ "" → (d.Merge (some s)).URL = d.URL)) ∧
    ((d.Title = "" → (d.Merge (some s)).Title = s.Title) ∧
      (d.Title ≠ "" → (d.Merge (some s)).Title = d.Title)) ∧
    ((d.Type' = "" → (d.Merge (some s)).Type' = s.Type') ∧
      (d.Type' ≠ "" → (d.Merge (some s)).Type' = d.Type')) ∧
    ((d.Description = "" → (d.Merge (some s)).Description = s.Description) ∧
      (d.Description ≠ "" → (d.Merge (some s)).Description = d.Description)) ∧
    ((d.HTML = "" → (d.Merge (some s)).HTML = s.HTML) ∧
      (d.HTML ≠ "" → (d.Merge (some s)).HTML = d.HTML)) ∧
    ((d.SiteName = "" → (d.Merge (some s)).SiteName = s.SiteName) ∧
      (d.SiteName ≠ "" → (d.Merge (some s)).SiteName = d.SiteName)) ∧
    ((d.Image = "" → (d.Merge (some s)).Image = s.Image) ∧
      (d.Image ≠ "" → (d.Merge (some s)).Image = d.Image)) ∧
    ((d.ImageWidth = 0 → (d.Merge (some s)).ImageWidth = s.ImageWidth) ∧
      (d.ImageWidth ≠ 0 → (d.Merge (some s)).ImageWidth = d.ImageWidth)) ∧
    ((d.ImageHeight = 0 → (d.Merge (some s)).ImageHeight = s.ImageHeight) ∧
      (d.ImageHeight ≠ 0 → (d.Merge (some s)).ImageHeight = d.ImageHeight)) ∧
    (d.Merge (some s)).Favicon = d.Favicon ∧
    (d.Merge (some s)).idx = d.idx ∧
    d.Merge none = d := by
  refine ⟨⟨?_, ?_⟩, ⟨?_, ?_⟩, ⟨?_, ?_⟩, ⟨?_, ?_⟩, ⟨?_, ?_⟩, ⟨?_, ?_⟩, ⟨?_, ?_⟩,
    ⟨?_, ?_⟩, ⟨?_, ?_⟩, rfl, rfl, rfl⟩ <;>
    intro h <;> simp [unfurlResult.Merge, h]

/-- C9 witness: the amended theorem applied at concrete records on the `URL`
field, once with an empty and once with a non-empty destination. -/
theorem claim_C9_witness :
    (mergeSrc0.Merge (some mergeDest0)).URL = mergeDest0.URL ∧
    (mergeDest0.Merge (some mergeSrc0)).URL = mergeDest0.URL :=
  ⟨(claim_C9_amended mergeSrc0 mergeDest0).1.1 rfl,
    (claim_C9_amended mergeDest0 mergeSrc0).1.2 (by decide)⟩

/-- C8 counterexample: the claim says the YouTube fetcher matches
`youtu.be/<id>` links, but `youtubeFetcher` only matches
`www.youtube.com/watch?v=…`: on a `youtu.be` URL it reports no match even
when the oEmbed endpoint would answer. -/
theorem claim_C8_counterexample :
    ytShort0.host = "youtu.be" ∧
    youtubeFetcher (fun _ => some ytInfo0) ytShort0 = none :=
  ⟨rfl, rfl⟩

/-- C8 amended: the fetcher matches exactly the URLs with host
`www.youtube.com`, path `/watch` and a query beginning `v=`; on a match it
requests `https://www.youtube.com/oembed?format=json&url=<escaped URL>`
(under the 3-second deadline constant) and returns the decoded metadata; on
every other URL — `youtu.be/<id>` short links included, which reach it only
via the post-redirect final URL — it reports no match. -/
theorem claim_C8_amended (oembedGet : String → Option OembedInfo) (u : URLRec) :
    (youtubeMatches u = true →
      youtubeFetcher oembedGet u =
        (oembedGet ("https://www.youtube.com/oembed?format=json&url=" ++
          queryEscape (urlString u))).map metaOfOembed) ∧
    (youtubeMatches u = false → youtubeFetcher oembedGet u = none) ∧
    youtubeTimeoutSeconds = 3 := by
  refine ⟨fun h => ?_, fun h => ?_, rfl⟩
  · unfold youtubeFetcher youtubeEndpoint
    rw [h]
    cases oembedGet ("https://www.youtube.com/oembed?format=json&url=" ++
      queryEscape (urlString u)) <;> rfl
  · unfold youtubeFetcher
    rw [h]
    rfl

/-- C8 witness: the amended theorem applied to a concrete `watch` URL and an
oracle holding a concrete payload, with the escaped endpoint spelled out. -/
theorem claim_C8_witness :
    youtubeMatches ytWatch0 = true ∧
    youtubeFetcher (fun _ => some ytInfo0) ytWatch0 = some (metaOfOembed ytInfo0) ∧
    youtubeEndpoint ytWatch0 =
      "https://www.youtube.com/oembed?format=json&url=https%3A%2F%2Fwww.youtube.com%2Fwatch%3Fv%3DdQw4w9WgXcQ" := by
  refine ⟨by decide, ?_, by decide⟩
  have h := (claim_C8_amended (fun _ => some ytInfo0) ytWatch0).1 (by decide)
  simpa using h

/-- C4 counterexample: for the result `imgResult0` (image `"http://"`,
width 10, height 20) resolution succeeds (the image starts with `http` and is
returned verbatim) but validation fails (empty host) — and the code clears
only `image`, keeping `image_width`/`image_height`, where the claim says all
three are cleared. -/
theorem claim_C4_counterexample :
    absoluteImageURL imgResult0.URL imgResult0.Image = .ok "http://" ∧
    validURL "http://" = false ∧
    (imagePostprocess false (fun _ => none) imgResult0).1 = { imgResult0 with Image := "" } ∧
    (imagePostprocess false (fun _ => none) imgResult0).1.ImageWidth = 10 ∧
    (imagePostprocess false (fun _ => none) imgResult0).1.ImageHeight = 20 :=
  ⟨rfl, by decide, by decide, by decide, by decide⟩

/-- C4 amended: with the image resolved by `absoluteImageURL` against
`result.url` and validated by `validURL` — an empty image is left untouched;
a *resolution* failure clears `image`, `image_width` and `image_height`; a
successful resolution that fails *validation* clears only `image` (width and
height are retained); and on success `image` is replaced by the absolute
URL. -/
theorem claim_C4_amended (fis : Bool) (dims : String → Option (Int × Int))
    (r : unfurlResult) :
    (absoluteImageURL r.URL r.Image = .error .emptyImageURL →
      imagePostprocess fis dims r = (r, [])) ∧
    (∀ e, absoluteImageURL r.URL r.Image = .error e → e ≠ AbsImgErr.emptyImageURL →
      (imagePostprocess fis dims r).1 =
        { r with Image := "", ImageWidth := 0, ImageHeight := 0 }) ∧
    (∀ absU, absoluteImageURL r.URL r.Image = .ok absU → validURL absU = true →
      (imagePostprocess fis dims r).1.Image = absU) ∧
    (∀ absU, absoluteImageURL r.URL r.Image = .ok absU → validURL absU = false →
      (imagePostprocess fis dims r).1 = { r with Image := "" }) := by
  refine ⟨fun h => ?_, fun e h he => ?_, fun absU h hv => ?_, fun absU h hv => ?_⟩
  · unfold imagePostprocess
    rw [h]
  · unfold imagePostprocess
    rw [h]
    cases e with
    | emptyImageURL => exact absurd rfl he
    | parseError => rfl
    | unsupportedScheme => rfl
  · unfold imagePostprocess
    rw [h]
    simp only [hv, if_true]
    split
    · split <;> rfl
    · rfl
  · unfold imagePostprocess
    rw [h]
    simp only [hv, if_false]
    rfl

/-- C4 witness: the amended theorem applied at a valid absolute image
(success keeps the absolute URL) and at an unsupported-scheme image
(resolution failure clears all three fields). -/
theorem claim_C4_witness :
    (imagePostprocess false (fun _ => none) imgResultOk0).1.Image =
      "http://example.com/a.png" ∧
    (imagePostprocess false (fun _ => none) imgResultFtp0).1 =
      { imgResultFtp0 with Image := "", ImageWidth := 0, ImageHeight := 0 } :=
  ⟨(claim_C4_amended false (fun _ => none) imgResultOk0).2.2.1
      "http://example.com/a.png" rfl (by decide),
    (claim_C4_amended false (fun _ => none) imgResultFtp0).2.1
      AbsImgErr.unsupportedScheme rfl (by decide)⟩

/-- The cleanup worker only drops a suffix of (the reversal of) its input. -/
theorem cleanRev_suffix (l : List Char) : ∃ k, cleanRev l = l.drop k := by
  induction l with
  | nil => exact ⟨0, rfl⟩
  | cons c rest ih =>
    unfold cleanRev
    split
    · split
      · exact ⟨0, rfl⟩
      · obtain ⟨k, hk⟩ := ih
        exact ⟨k + 1, by simpa using hk⟩
    · exact ⟨0, rfl⟩

/-- The per-match cleanup only truncates: its output is a `take` of its
input. -/
theorem cleanURL_take (s : List Char) : ∃ k, cleanURL s = s.take k := by
  unfold cleanURL
  split
  · obtain ⟨k, hk⟩ := cleanRev_suffix s.reverse
    refine ⟨s.length - k, ?_⟩
    rw [hk, List.reverse_drop, List.reverse_reverse, List.length_reverse]
  · exact ⟨s.length, (List.take_length s).symm⟩

/-- If the cleanup worker's output still begins (in reversed order: ends)
with a punctuation character, the keep rule fired for it. -/
theorem cleanRev_head (l : List Char) (c : Char) (hh : (cleanRev l).head? = some c)
    (hc : c ∈ punctChars) : keepClose c (cleanRev l).reverse = true := by
  induction l with
  | nil => simp [cleanRev] at hh
  | cons x rest ih =>
    have e : cleanRev (x :: rest) =
        if x ∈ punctChars then
          if keepClose x (x :: rest).reverse then x :: rest else cleanRev rest
        else x :: rest := rfl
    rw [e] at hh ⊢
    by_cases hx : x ∈ punctChars
    · by_cases hkeep : keepClose x (x :: rest).reverse = true
      · rw [if_pos hx, if_pos hkeep] at hh ⊢
        simp only [List.head?_cons, Option.some.injEq] at hh
        subst hh
        exact hkeep
      · rw [if_pos hx, if_neg hkeep] at hh ⊢
        exact ih hh
    · rw [if_neg hx] at hh ⊢
      simp only [List.head?_cons, Option.some.injEq] at hh
      subst hh
      exact absurd hc hx

/-- A character reported by `getLast?` is a member of the list. -/
theorem mem_of_getLast?_eq (s : List Char) (c : Char) (h : s.getLast? = some c) :
    c ∈ s := by
  rw [← List.head?_reverse] at h
  cases hrev : s.reverse with
  | nil => rw [hrev] at h; simp at h
  | cons x t =>
    rw [hrev] at h
    have hx : x = c := by simpa using h
    have : c ∈ s.reverse := by
      rw [hrev, ← hx]
      exact List.mem_cons_self _ _
    exact List.mem_reverse.mp this

/-- C7 counterexample: the claim's strip set is `] ) > } , ; . * _`, but the
code's `punct` also contains the openers `[ ( { <`: on the match
`http://x.com/a(` the code strips the trailing `(` while the claim's
iteration (formalized as `cleanSpec`) leaves it in place. -/
theorem claim_C7_counterexample :
    cleanURL "http://x.com/a(".toList = "http://x.com/a".toList ∧
    cleanSpec "http://x.com/a(".toList = "http://x.com/a(".toList ∧
    ParseURLs "see http://x.com/a( end" = ["http://x.com/a"] :=
  ⟨by decide, by decide, by decide⟩

/-- C7 amended: the cleanup strips trailing characters of the *full* set
`[ ] ( ) < > { } , ; . * _` (openers included) iteratively; it only ever
truncates the match; any punctuation character it leaves in trailing
position is one of `) ] > }` whose opener occurs at a positive index of the
returned string; and a match ending in `) ] > }` whose opener occurs at a
positive index is returned unchanged. -/
theorem claim_C7_amended (s : List Char) :
    (∃ k, cleanURL s = s.take k) ∧
    (∀ c, (cleanURL s).getLast? = some c → c ∈ punctChars →
      keepClose c (cleanURL s) = true) ∧
    (∀ c, s.getLast? = some c → c ∈ [')', ']', '>', '}'] → keepClose c s = true →
      cleanURL s = s) := by
  refine ⟨cleanURL_take s, fun c hlast hc => ?_, fun c hlast hcl hkeep => ?_⟩
  · by_cases hany : (s.any fun x => decide (x ∈ punctChars)) = true
    · unfold cleanURL at hlast ⊢
      rw [if_pos hany] at hlast ⊢
      rw [List.getLast?_reverse] at hlast
      exact cleanRev_head s.reverse c hlast hc
    · unfold cleanURL at hlast
      rw [if_neg hany] at hlast
      exact absurd (List.any_eq_true.mpr
        ⟨c, mem_of_getLast?_eq s c hlast, by simpa using hc⟩) hany
  · have hpunct : c ∈ punctChars := by
      simp only [List.mem_cons, List.not_mem_nil, or_false] at hcl
      rcases hcl with rfl | rfl | rfl | rfl <;> decide
    have hany : (s.any fun x => decide (x ∈ punctChars)) = true :=
      List.any_eq_true.mpr ⟨c, mem_of_getLast?_eq s c hlast, by simpa using hpunct⟩
    unfold cleanURL
    rw [if_pos hany]
    rw [← List.head?_reverse] at hlast
    cases hrev : s.reverse with
    | nil => rw [hrev] at hlast; simp at hlast
    | cons x t =>
      have hx : x = c := by
        rw [hrev] at hlast
        simpa using hlast
      subst hx
      have hs : (x :: t).reverse = s := by rw [← hrev, List.reverse_reverse]
      have e : cleanRev (x :: t) =
          if x ∈ punctChars then
            if keepClose x (x :: t).reverse then x :: t else cleanRev t
          else x :: t := rfl
      rw [e, hs, if_pos hpunct, if_pos hkeep]
      exact hs

/-- C7 witness: the amended theorem's keep rule applied at the concrete match
`http://x.com/(a)`, which ends in `)` with `(` at a positive index and is
returned unchanged. -/
theorem claim_C7_witness :
    cleanURL "http://x.com/(a)".toList = "http://x.com/(a)".toList :=
  (claim_C7_amended "http://x.com/(a)".toList).2.2 ')' (by decide) (by decide) (by decide)

/-- The `seen`-set de-duplication loop keeps exactly the first occurrences of
the elements not already seen. -/
theorem dedupSeen_eq (l : List String) : ∀ seen,
    dedupSeen seen l = firstOccurrences (l.filter (fun v => !seen.contains v)) := by
  induction l with
  | nil =>
    intro seen
    simp [dedupSeen, firstOccurrences]
  | cons v rest ih =>
    intro seen
    have e : dedupSeen seen (v :: rest) =
        if seen.contains v then dedupSeen seen rest
        else v :: dedupSeen (v :: seen) rest := rfl
    by_cases hv : seen.contains v = true
    · rw [e, if_pos hv, List.filter_cons_of_neg (by simp only [hv, Bool.not_true]; decide), ih seen]
    · have hv' : seen.contains v = false := by
        revert hv
        cases seen.contains v <;> simp
      rw [e, if_neg hv, List.filter_cons_of_pos (by simp only [hv', Bool.not_false]),
        firstOccurrences]
      congr 1
      rw [ih (v :: seen), List.filter_filter]
      congr 1
      refine List.filter_congr fun a _ => ?_
      simp only [List.contains_cons, Bool.not_or]

/-- Function `parseURLsMax` is the first-occurrence de-duplication of its cleaned
match list. -/
theorem parseURLsMax_eq (content : String) (n : Int) :
    parseURLsMax content n = firstOccurrences (cleanedMatches content n) := by
  unfold parseURLsMax dedupFirstSeen
  rw [dedupSeen_eq]
  congr 1
  simp

/-- Everything `firstOccurrences` returns is in its input (length-bounded
induction). -/
theorem firstOccurrences_sub : ∀ (n : Nat) (l : List String), l.length ≤ n →
    ∀ x ∈ firstOccurrences l, x ∈ l := by
  intro n
  induction n with
  | zero =>
    intro l hl x hx
    rw [List.length_eq_zero.mp (Nat.le_zero.mp hl)] at hx ⊢
    simp [firstOccurrences] at hx
  | succ n ih =>
    intro l hl x hx
    cases l with
    | nil => simp [firstOccurrences] at hx
    | cons a t =>
      rw [firstOccurrences] at hx
      rcases List.mem_cons.mp hx with rfl | hx'
      · exact List.mem_cons_self _ _
      · have ht : (t.filter (fun y => !(y == a))).length ≤ n :=
          le_trans (List.length_filter_le _ _) (Nat.le_of_succ_le_succ hl)
        exact List.mem_cons_of_mem _ (List.mem_of_mem_filter (ih _ ht x hx'))

/-- Lemma: `firstOccurrences` has no duplicates. -/
theorem firstOccurrences_nodup : ∀ (n : Nat) (l : List String), l.length ≤ n →
    (firstOccurrences l).Nodup := by
  intro n
  induction n with
  | zero =>
    intro l hl
    rw [List.length_eq_zero.mp (Nat.le_zero.mp hl)]
    simp [firstOccurrences]
  | succ n ih =>
    intro l hl
    cases l with
    | nil => simp [firstOccurrences]
    | cons a t =>
      rw [firstOccurrences]
      have ht : (t.filter (fun y => !(y == a))).length ≤ n :=
        le_trans (List.length_filter_le _ _) (Nat.le_of_succ_le_succ hl)
      refine List.nodup_cons.mpr ⟨fun ha => ?_, ih _ ht⟩
      have := List.of_mem_filter (firstOccurrences_sub n _ ht a ha)
      simp at this

/-- The de-duplication loop never lengthens the list. -/
theorem dedupSeen_length_le : ∀ (l : List String) (seen : List String),
    (dedupSeen seen l).length ≤ l.length := by
  intro l
  induction l with
  | nil => intro seen; simp [dedupSeen]
  | cons v rest ih =>
    intro seen
    have e : dedupSeen seen (v :: rest) =
        if seen.contains v then dedupSeen seen rest
        else v :: dedupSeen (v :: seen) rest := rfl
    rw [e]
    split
    · exact le_trans (ih seen) (Nat.le_succ _)
    · simpa using Nat.succ_le_succ (ih (v :: seen))

/-- The regexp scanner honours a non-negative cap. -/
theorem findAllAux_length_le : ∀ (fuel : Nat) (cs : List Char) (n : Int), 0 ≤ n →
    (findAllAux fuel cs n).length ≤ n.toNat := by
  intro fuel
  induction fuel with
  | zero => intro cs n _; simp [findAllAux]
  | succ fuel ih =>
    intro cs n hn
    unfold findAllAux
    split
    · simp
    · next hn0 =>
      cases cs with
      | nil => simp
      | cons c rest =>
        cases hm : matchAt (c :: rest) with
        | some p =>
          obtain ⟨m, after⟩ := p
          simp only [hm]
          have h2 := ih after (n - 1) (by omega)
          simp only [List.length_cons]
          omega
        | none =>
          simp only [hm]
          exact ih rest n hn

/-- C2 counterexample: with the duplicate-bearing text
`http://a.com http://a.com http://b.com` and `MaxResults = 2` the extractor
returns one URL, not `min(2 distinct, 2) = 2`: the regexp cap is applied to
the raw matches *before* de-duplication. -/
theorem claim_C2_counterexample :
    parseURLsMax "http://a.com http://a.com http://b.com" 2 = ["http://a.com"] ∧
    parseURLsMax "http://a.com http://a.com http://b.com" (-1) =
      ["http://a.com", "http://b.com"] ∧
    (parseURLsMax "http://a.com http://a.com http://b.com" 2).length ≠
      min (parseURLsMax "http://a.com http://a.com http://b.com" (-1)).length 2 :=
  ⟨by decide, by decide, by decide⟩

/-- C2 amended (plain-text mode): the extractor takes the first `MaxResults`
regexp matches, cleans them, and then de-duplicates keeping first
occurrences; the output is exactly `firstOccurrences` of that cleaned capped
match list — duplicate-free, in first-occurrence order, of length at most
`MaxResults` (but possibly shorter than the number of distinct URLs in the
whole text capped at `MaxResults`, since duplicates are removed only after
the cap). -/
theorem claim_C2_amended (content : String) (n : Int) (hn : 0 ≤ n) :
    parseURLsMax content n = firstOccurrences (cleanedMatches content n) ∧
    (parseURLsMax content n).Nodup ∧
    (parseURLsMax content n).length ≤ n.toNat := by
  refine ⟨parseURLsMax_eq content n, ?_, ?_⟩
  · rw [parseURLsMax_eq]
    exact firstOccurrences_nodup (cleanedMatches content n).length _ le_rfl
  · have h1 : (parseURLsMax content n).length ≤ (cleanedMatches content n).length := by
      unfold parseURLsMax dedupFirstSeen
      exact dedupSeen_length_le _ []
    have h2 : (cleanedMatches content n).length =
        (findAllAux content.toList.length content.toList n).length := by
      unfold cleanedMatches findAll
      simp
    have h3 := findAllAux_length_le content.toList.length content.toList n hn
    omega

/-- C2 witness: the amended theorem applied at a concrete two-URL text with
cap 5. -/
theorem claim_C2_witness :
    parseURLsMax "http://a.com and http://b.com" 5 =
      firstOccurrences (cleanedMatches "http://a.com and http://b.com" 5) ∧
    (parseURLsMax "http://a.com and http://b.com" 5).Nodup ∧
    (parseURLsMax "http://a.com and http://b.com" 5).length ≤ (5 : Int).toNat :=
  claim_C2_amended "http://a.com and http://b.com" 5 (by decide)

/-- The pipeline below the cache stage reads the cache client only to decide
whether to write back; which function the configured cache is does not
matter. -/
theorem afterCache_cacheGet_irrel (env : Env)
    (g g' : String → Option (List Nat)) (link : String) :
    afterCache { env with cacheGet := some g } link =
      afterCache { env with cacheGet := some g' } link := by
  simp only [afterCache, afterOptimistic, afterChunk, afterOG, basicStage,
    fetchErrorFallback, finalize, fetchData, oembedEndpoint]

/-- Replacing a configured cache function by another leaves the
post-cache pipeline unchanged. -/
theorem afterCache_cacheGet_congr (env : Env)
    (g' g : String → Option (List Nat)) (link : String)
    (hget : env.cacheGet = some g) :
    afterCache { env with cacheGet := some g' } link = afterCache env link := by
  have h1 : afterCache env link = afterCache { env with cacheGet := some g } link := by
    rw [show { env with cacheGet := some g } = env by rw [← hget]]
  rw [h1]
  exact afterCache_cacheGet_irrel env g' g link

/-- The hex fold writes two characters per byte. -/
theorem hexFold_length (bs : List Nat) :
    (bs.foldr (fun b acc => hexByte b ++ acc) []).length = 2 * bs.length := by
  induction bs with
  | nil => rfl
  | cons b rest ih =>
    simp only [List.foldr_cons, List.length_append, ih, List.length_cons]
    have hb : (hexByte b).length = 2 := rfl
    omega

/-- SHA-1 digests have 20 bytes. -/
theorem sha1_length (msg : List Nat) : (sha1 msg).length = 20 := by
  simp [sha1, beBytes4]

/-- Hex digits of values below 16 are in the hex alphabet. -/
theorem digitChar_mem_hexChars (n : Nat) (hn : n < 16) : Nat.digitChar n ∈ hexChars :=
  List.mem_map_of_mem Nat.digitChar (List.mem_range.mpr hn)

/-- Both characters of a hex-encoded byte are lowercase hex digits. -/
theorem hexByte_chars (b : Nat) (c : Char) (hc : c ∈ hexByte b) : c ∈ hexChars := by
  rcases List.mem_cons.mp hc with rfl | hc'
  · exact digitChar_mem_hexChars _ (Nat.mod_lt _ (by omega))
  · rcases List.mem_cons.mp hc' with rfl | hc''
    · exact digitChar_mem_hexChars _ (Nat.mod_lt _ (by omega))
    · simp at hc''

/-- Every character the hex fold produces is a lowercase hex digit. -/
theorem hexFold_chars (bs : List Nat) (c : Char)
    (hc : c ∈ bs.foldr (fun b acc => hexByte b ++ acc) []) : c ∈ hexChars := by
  induction bs with
  | nil => simp at hc
  | cons b rest ih =>
    simp only [List.foldr_cons, List.mem_append] at hc
    rcases hc with hc | hc
    · exact hexByte_chars b c hc
    · exact ih hc

/-- C5: the cache key is the lowercase hex SHA-1 of the URL (40 characters
over `0-9a-f`); with a configured cache, a hit that Snappy-decompresses and
JSON-decodes is returned as-is — the worker's whole event trace is the one
cache read, so no outbound fetch happens — and `processURLidx` stamps the
caller's `idx` on it; and a hit that fails to decode makes the worker behave
exactly as if the key had been missing from the cache. -/
theorem claim_C5 :
    (∀ s : String, (mcKey s).length = 40 ∧ ∀ c ∈ (mcKey s).toList, c ∈ hexChars) ∧
    (∀ (env : Env) (link : String) (g : String → Option (List Nat))
        (raw : List Nat) (cached : unfurlResult) (i : Int),
      (match env.pmap with | some pm => pm link | none => false) = false →
      env.cacheGet = some g → g (mcKey link) = some raw →
      cacheDecode env raw = some cached →
      processURL env link = ⟨cached, [.cacheRead (mcKey link)], .cacheHit⟩ ∧
      processURLidx env i link = { cached with idx := i }) ∧
    (∀ (env : Env) (link : String) (g : String → Option (List Nat)) (raw : List Nat),
      (match env.pmap with | some pm => pm link | none => false) = false →
      env.cacheGet = some g → g (mcKey link) = some raw →
      cacheDecode env raw = none →
      processURL env link =
        processURL { env with cacheGet := some (fun _ => none) } link) := by
  refine ⟨fun s => ⟨?_, fun c hc => ?_⟩, ?_, ?_⟩
  · show (hexEncode (sha1 (strBytes s))).length = 40
    unfold hexEncode
    show (List.foldr _ [] _).length = 40
    rw [hexFold_length, sha1_length]
  · exact hexFold_chars _ c hc
  · intro env link g raw cached i hblock hget hraw hdec
    have hmain : processURL env link = ⟨cached, [.cacheRead (mcKey link)], .cacheHit⟩ := by
      unfold processURL cacheLookup cacheReadEvents
      simp only [hblock, hget, hraw, hdec, Bool.false_eq_true, if_false]
    refine ⟨hmain, ?_⟩
    unfold processURLidx
    rw [hmain]
  · intro env link g raw hblock hget hraw hdec
    have hl : cacheLookup env link = none := by
      unfold cacheLookup
      simp only [hget, hraw, hdec]
    have hl' : cacheLookup { env with cacheGet := some (fun _ => none) } link = none := by
      unfold cacheLookup
      rfl
    have hac : afterCache { env with cacheGet := some (fun _ => none) } link =
        afterCache env link := by
      rw [afterCache_cacheGet_congr env (fun _ => none) g link hget]
    unfold processURL
    simp only [hblock, Bool.false_eq_true, if_false, hl, hl', hac]
    unfold cacheReadEvents
    simp only [hget]

/-- C5 witness: the theorem applied at a concrete environment whose cache
holds a decodable value (hit) and at one whose value fails decompression
(treated as a miss). -/
theorem claim_C5_witness :
    processURL envHit0 "http://example.com/" =
      ⟨cachedResult0, [.cacheRead (mcKey "http://example.com/")], .cacheHit⟩ ∧
    processURLidx envHit0 3 "http://example.com/" = { cachedResult0 with idx := 3 } ∧
    processURL envBadCache0 "http://example.com/" =
      processURL { envBadCache0 with cacheGet := some (fun _ => none) }
        "http://example.com/" := by
  have h := claim_C5.2.1 envHit0 "http://example.com/" (fun _ => some [7]) [7]
    cachedResult0 3 rfl rfl rfl rfl
  have h2 := claim_C5.2.2 envBadCache0 "http://example.com/" (fun _ => some [7]) [7]
    rfl rfl rfl rfl
  exact ⟨h.1, h.2, h2⟩

/-- C6: a response with status `>= 400` makes `fetchData` return an error
together with a partial chunk carrying the final post-redirect URL; on such a
fetch error the worker consults the YouTube fetcher exactly when the final
host contains `youtube.com` — a valid YouTube hit completes the pipeline with
the fetched metadata (image post-processed), and in every other case the
worker returns the minimum-viable result `{url: u}` through the fetch-error
return, failing nothing. -/
theorem claim_C6 (env : Env) (link : String) (resp : HttpResp)
    (hget : env.httpGet link = some resp) (hstatus : 400 ≤ resp.statusCode)
    (hblock : (match env.pmap with | some pm => pm link | none => false) = false)
    (hcache : cacheLookup env link = none)
    (hoembed : env.oembedLookup link = none) :
    fetchData env link = .errWith ⟨[], resp.finalURL, ""⟩ ∧
    (containsSub resp.finalURL.host "youtube.com" = false →
      (processURL env link).result = mkResult link ∧
      (processURL env link).outcome = .fetchFailed) ∧
    (containsSub resp.finalURL.host "youtube.com" = true →
      youtubeFetcher env.ytOembed resp.finalURL = none →
      (processURL env link).result = mkResult link ∧
      (processURL env link).outcome = .fetchFailed) ∧
    (∀ meta, containsSub resp.finalURL.host "youtube.com" = true →
      youtubeFetcher env.ytOembed resp.finalURL = some meta →
      (processURL env link).result =
        (imagePostprocess env.fetchImageSize env.dims (applyMeta (mkResult link) meta)).1 ∧
      (processURL env link).outcome = .completed) := by
  have hfd : fetchData env link = .errWith ⟨[], resp.finalURL, ""⟩ := by
    unfold fetchData
    simp only [hget]
    rw [if_pos hstatus]
  have hu : (mkResult link).URL = link := rfl
  have hp : processURL env link =
      ⟨(afterCache env link).result,
        cacheReadEvents env link ++ (afterCache env link).events,
        (afterCache env link).outcome⟩ := by
    unfold processURL
    simp only [hblock, Bool.false_eq_true, if_false, hcache]
  have hac : afterCache env link =
      fetchErrorFallback env link (mkResult link)
        (some ⟨[], resp.finalURL, ""⟩) ([] ++ [.httpFetch link]) := by
    unfold afterCache afterOptimistic
    simp only [hu, hoembed, hfd]
  refine ⟨hfd, fun hyc => ?_, fun hyc hyt => ?_, fun meta hyc hyt => ?_⟩
  · rw [hp, hac]
    unfold fetchErrorFallback
    simp only [hyc, Bool.false_eq_true, if_false]
    refine ⟨?_, ?_⟩ <;> trivial
  · rw [hp, hac]
    unfold fetchErrorFallback
    simp only [hyc, if_true, hyt]
    refine ⟨?_, ?_⟩ <;> trivial
  · rw [hp, hac]
    unfold fetchErrorFallback
    simp only [hyc, if_true, hyt]
    have hv : meta.Valid = true := rfl
    simp only [hv, if_true]
    unfold finalize
    refine ⟨?_, ?_⟩ <;> trivial

/-- C6 witness: the theorem applied at a concrete environment answering 500
from a non-YouTube host: `fetchData` reports the error with the final URL and
the worker returns `{url: u}`. -/
theorem claim_C6_witness :
    fetchData env500 "http://example.com/x" = .errWith ⟨[], resp500.finalURL, ""⟩ ∧
    (processURL env500 "http://example.com/x").result = mkResult "http://example.com/x" ∧
    (processURL env500 "http://example.com/x").outcome = .fetchFailed := by
  have h := claim_C6 env500 "http://example.com/x" resp500 rfl (by decide) rfl rfl rfl
  exact ⟨h.1, (h.2.1 (by decide)).1, (h.2.1 (by decide)).2⟩

/-- A result with a non-empty URL is never `Empty`. -/
theorem empty_false_of_url (r : unfurlResult) (h : r.URL ≠ "") : r.Empty = false := by
  unfold unfurlResult.Empty
  simp [h]

/-- Image post-processing never touches the `url` field. -/
theorem imagePostprocess_URL (f : Bool) (d : String → Option (Int × Int))
    (r : unfurlResult) : ((imagePostprocess f d r).1).URL = r.URL := by
  unfold imagePostprocess
  split
  · rfl
  · dsimp only
    repeat' split
    all_goals rfl
  · rfl

/-- Lemma: `Merge` keeps a non-empty destination URL. -/
theorem merge_url (r : unfurlResult) (x : Option unfurlResult) (h : r.URL ≠ "") :
    (r.Merge x).URL = r.URL := by
  cases x
  · rfl
  · simp [unfurlResult.Merge, h]

/-- Lemma: `finalize` completes the pipeline: it preserves the URL, reports
`completed`, and — with a cache configured and a non-empty URL — emits the
cache write under `mcKey link`. -/
theorem finalize_spec (env : Env) (link : String) (r : unfurlResult)
    (evs : List NetEvent) (g : String → Option (List Nat))
    (hg : env.cacheGet = some g) (hurl : r.URL ≠ "") :
    (finalize env link r evs).result.URL = r.URL ∧
    (finalize env link r evs).outcome = .completed ∧
    NetEvent.cacheWrite (mcKey link) ∈ (finalize env link r evs).events := by
  have hppu := imagePostprocess_URL env.fetchImageSize env.dims r
  have hempty : ((imagePostprocess env.fetchImageSize env.dims r).1).Empty = false :=
    empty_false_of_url _ (by rw [hppu]; exact hurl)
  unfold finalize
  simp only [hg, hempty, Bool.false_eq_true, if_false]
  refine ⟨?_, ?_, ?_⟩
  · exact hppu
  · trivial
  · simp [List.mem_append]

/-- The property claim C10 asserts about one worker run: completion implies
URL preservation and a cache write. -/
def C10Good (link : String) (p : ProcOut) : Prop :=
  p.outcome = .completed →
    p.result.URL = link ∧ NetEvent.cacheWrite (mcKey link) ∈ p.events

/-- A `finalize` call on a result whose URL is `link` is `C10Good`. -/
theorem finalize_good (env : Env) (link : String) (r : unfurlResult)
    (evs : List NetEvent) (g : String → Option (List Nat))
    (hg : env.cacheGet = some g) (hr : r.URL = link) (hlink : link ≠ "") :
    C10Good link (finalize env link r evs) := by
  intro _
  obtain ⟨h1, _, h3⟩ := finalize_spec env link r evs g hg (by rw [hr]; exact hlink)
  rw [hr] at h1
  exact ⟨h1, h3⟩

/-- Stage `basicStage` satisfies the completion property. -/
theorem basicStage_good (env : Env) (link : String) (r : unfurlResult)
    (chunk : pageChunk) (evs : List NetEvent) (g : String → Option (List Nat))
    (hg : env.cacheGet = some g) (hr : r.URL = link) (hlink : link ≠ "") :
    C10Good link (basicStage env link r chunk evs) := by
  have hru : r.URL ≠ "" := by rw [hr]; exact hlink
  unfold basicStage
  split
  · next res _ =>
    split
    · exact finalize_good env link (r.Merge (some res)) evs g hg
        (by rw [merge_url r _ hru]; exact hr) hlink
    · exact finalize_good env link r evs g hg hr hlink
  · exact finalize_good env link r evs g hg hr hlink

/-- Stage `afterOG` satisfies the completion property. -/
theorem afterOG_good (env : Env) (link : String) (r : unfurlResult)
    (chunk : pageChunk) (evs : List NetEvent) (g : String → Option (List Nat))
    (hg : env.cacheGet = some g) (hr : r.URL = link) (hlink : link ≠ "") :
    C10Good link (afterOG env link r chunk evs) := by
  have hru : r.URL ≠ "" := by rw [hr]; exact hlink
  unfold afterOG
  split
  · next endpoint _ =>
    split
    · next res _ =>
      exact finalize_good env link (r.Merge (some res)) _ g hg
        (by rw [merge_url r _ hru]; exact hr) hlink
    · exact basicStage_good env link r chunk _ g hg hr hlink
  · exact basicStage_good env link r chunk evs g hg hr hlink

/-- Stage `afterChunk` satisfies the completion property. -/
theorem afterChunk_good (env : Env) (link : String) (r : unfurlResult)
    (chunk : pageChunk) (evs : List NetEvent) (g : String → Option (List Nat))
    (hg : env.cacheGet = some g) (hr : r.URL = link) (hlink : link ≠ "") :
    C10Good link (afterChunk env link r chunk evs) := by
  have hru : r.URL ≠ "" := by rw [hr]; exact hlink
  unfold afterChunk
  have hfav : ∀ rf : unfurlResult, rf.URL = link →
      C10Good link
        (match (runFetchers env.fetchers chunk.url).1 with
          | some meta => finalize env link (applyMeta rf meta)
              (evs ++ [.faviconProbe] ++ (runFetchers env.fetchers chunk.url).2)
          | none =>
            match env.ogParse chunk with
            | some res =>
              if !blocklisted env.titleBlocklist res.Title then
                finalize env link (rf.Merge (some res))
                  (evs ++ [.faviconProbe] ++ (runFetchers env.fetchers chunk.url).2)
              else afterOG env link rf chunk
                (evs ++ [.faviconProbe] ++ (runFetchers env.fetchers chunk.url).2)
            | none => afterOG env link rf chunk
                (evs ++ [.faviconProbe] ++ (runFetchers env.fetchers chunk.url).2)) := by
    intro rf hrf
    have hrfu : rf.URL ≠ "" := by rw [hrf]; exact hlink
    split
    · next meta _ =>
      exact finalize_good env link (applyMeta rf meta) _ g hg hrf hlink
    · split
      · next res _ =>
        split
        · exact finalize_good env link (rf.Merge (some res)) _ g hg
            (by rw [merge_url rf _ hrfu]; exact hrf) hlink
        · exact afterOG_good env link rf chunk _ g hg hrf hlink
      · exact afterOG_good env link rf chunk _ g hg hrf hlink
  split
  · next s _ =>
    split
    · exact hfav _ hr
    · exact hfav _ hr
  · exact hfav _ hr

/-- Stage `fetchErrorFallback` satisfies the completion property. -/
theorem fetchErrorFallback_good (env : Env) (link : String) (r : unfurlResult)
    (chunkOpt : Option pageChunk) (evs : List NetEvent)
    (g : String → Option (List Nat))
    (hg : env.cacheGet = some g) (hr : r.URL = link) (hlink : link ≠ "") :
    C10Good link (fetchErrorFallback env link r chunkOpt evs) := by
  have hru : r.URL ≠ "" := by rw [hr]; exact hlink
  unfold fetchErrorFallback
  split
  · next chunk =>
    by_cases hyc : containsSub chunk.url.host "youtube.com" = true
    · rw [if_pos hyc]
      dsimp only
      cases hyf : youtubeFetcher env.ytOembed chunk.url with
      | none =>
        simp only [hyf]
        intro h
        simp at h
      | some meta =>
        simp only [hyf]
        have hv : meta.Valid = true := rfl
        rw [if_pos hv]
        exact finalize_good env link (applyMeta r meta) _ g hg hr hlink
    · rw [if_neg hyc]
      intro h
      simp at h
  · intro h
    simp at h

/-- Stage `afterOptimistic` satisfies the completion property. -/
theorem afterOptimistic_good (env : Env) (link : String) (r : unfurlResult)
    (evs : List NetEvent) (g : String → Option (List Nat))
    (hg : env.cacheGet = some g) (hr : r.URL = link) (hlink : link ≠ "") :
    C10Good link (afterOptimistic env link r evs) := by
  unfold afterOptimistic
  split
  · exact afterChunk_good env link r _ _ g hg hr hlink
  · exact fetchErrorFallback_good env link r _ _ g hg hr hlink
  · exact fetchErrorFallback_good env link r none _ g hg hr hlink

/-- Stage `afterCache` satisfies the completion property. -/
theorem afterCache_good (env : Env) (link : String) (g : String → Option (List Nat))
    (hg : env.cacheGet = some g) (hlink : link ≠ "") :
    C10Good link (afterCache env link) := by
  have hmk : (mkResult link).URL = link := rfl
  have hmku : (mkResult link).URL ≠ "" := by rw [hmk]; exact hlink
  unfold afterCache
  dsimp only
  split
  · next endpoint _ =>
    split
    · next res _ =>
      exact finalize_good env link ((mkResult link).Merge (some res)) _ g hg
        (by rw [merge_url _ _ hmku]; exact hmk) hlink
    · exact afterOptimistic_good env link (mkResult link) _ g hg hmk hlink
  · exact afterOptimistic_good env link (mkResult link) _ g hg hmk hlink

/-- C10: a result whose `url` is non-empty is never `Empty`; and since the
worker initializes its result with `url := link` and every stage preserves a
non-empty URL, every run that reaches the final return (outcome `completed`)
with a configured cache carries `url = link` and emits the cache write under
`mcKey link` — including runs whose result holds no metadata beyond the URL
(and possibly a favicon). -/
theorem claim_C10 :
    (∀ r : unfurlResult, r.URL ≠ "" → r.Empty = false) ∧
    (∀ (env : Env) (link : String) (g : String → Option (List Nat)),
      link ≠ "" → env.cacheGet = some g →
      (processURL env link).outcome = .completed →
      (processURL env link).result.URL = link ∧
      NetEvent.cacheWrite (mcKey link) ∈ (processURL env link).events) := by
  refine ⟨empty_false_of_url, ?_⟩
  intro env link g hlink hg hout
  by_cases hb : (match env.pmap with | some pm => pm link | none => false) = true
  · have hpe : processURL env link = ⟨mkResult link, [], .blocked⟩ := by
      unfold processURL
      simp only [hb, if_true]
    rw [hpe] at hout
    simp at hout
  · have hb' : (match env.pmap with | some pm => pm link | none => false) = false := by
      revert hb
      cases (match env.pmap with | some pm => pm link | none => false) <;> simp
    cases hcl : cacheLookup env link with
    | some c =>
      have hpe : processURL env link = ⟨c, cacheReadEvents env link, .cacheHit⟩ := by
        unfold processURL
        simp only [hb', Bool.false_eq_true, if_false, hcl]
      rw [hpe] at hout
      simp at hout
    | none =>
      have hpe : processURL env link =
          ⟨(afterCache env link).result,
            cacheReadEvents env link ++ (afterCache env link).events,
            (afterCache env link).outcome⟩ := by
        unfold processURL
        simp only [hb', Bool.false_eq_true, if_false, hcl]
      rw [hpe] at hout ⊢
      have h := afterCache_good env link g hg hlink hout
      exact ⟨h.1, List.mem_append_right _ h.2⟩

/-- C10 witness: the theorem applied to a non-empty URL and to a concrete
completing environment (200 response, basic-HTML title, configured cache):
the run completes, keeps its URL and writes the cache. -/
theorem claim_C10_witness :
    (mkResult "http://example.com/").Empty = false ∧
    (processURL envDone0 "http://example.com/").result.URL = "http://example.com/" ∧
    NetEvent.cacheWrite (mcKey "http://example.com/") ∈
      (processURL envDone0 "http://example.com/").events := by
  have h := claim_C10.2 envDone0 "http://example.com/" (fun _ => none)
    (by decide) rfl (by decide)
  exact ⟨claim_C10.1 (mkResult "http://example.com/") (by decide), h.1, h.2⟩

end Unfurlist
